import Mathlib

/-!
# Verification of the mini-editor state core

Shallow embedding of the mini-editor repository's state-management core:

* `recordChange` and `editorReducer` from `EditorContext` (history recording,
  coalescing, eviction, undo/redo, the built-in action cases, and the
  plugin-level reducer hooks);
* the keyDown/paste distribution loops of `enhancedDispatch`;
* `isSelectionInMarkdownLink` from the AutoLink support module.

Modelling conventions:

* JavaScript strings become `List Char`; `String.prototype.slice(a, b)` on
  non-negative indices becomes `take`/`drop` (both clamp the same way).
* `Date.now()` timestamps are threaded as an explicit `now : Nat` argument.
* JavaScript's `Partial<EditorState>` argument of `recordChange` becomes the
  `Changes` structure of `Option` fields; `x ?? y` becomes `Option.getD`,
  and the spread `{...state, ...changes}` becomes `mergeChanges` (the source
  never places an `undefined` value in `changes`, so the two coincide).
* Array `offset` indices are `Nat`: every offset the program ever stores is
  non-negative (`Math.max(..., 0)`, guarded decrements, initial `0`), and
  JavaScript's `Math.max(offset - extras, 0)` agrees with truncated `Nat`
  subtraction.
* The `state.plugins` record of plugin-level reducer hooks is passed to the
  reducer as an explicit ordered association list (a plugin value without a
  `reducer` key is modelled by `none`); this avoids a negative occurrence of
  `EditorState` in its own definition and changes nothing else.
* Plugin keyDown/paste handlers are modelled by their observable decision
  `event → state → Bool`; the dispatch side effects they perform are outside
  the reducer and irrelevant to the dispatch-order claims.
-/

namespace MiniEditor

/-- `SelectionDirection` enum from `EditorContext`. -/
inductive SelectionDirection where
  | forward
  | backward
  | none
deriving DecidableEq, Repr

/-- `EditorHistoryRecord` from `EditorContext`. -/
structure EditorHistoryRecord where
  text : List Char
  selectionStart : Nat
  selectionEnd : Nat
  selectionDirection : SelectionDirection
  timestamp : Nat
deriving DecidableEq, Repr

/-- The `history` field of `EditorState`: `{ stack, offset }`. -/
structure EditorHistory where
  stack : List EditorHistoryRecord
  offset : Nat
deriving DecidableEq, Repr

/-- `EditorState` from `EditorContext` (the `plugins` record is passed to the
reducer separately, see the module comment). -/
structure EditorState where
  text : List Char
  selectionStart : Nat
  selectionEnd : Nat
  selectionDirection : SelectionDirection
  editorHasFocus : Bool
  history : Option EditorHistory
deriving DecidableEq, Repr

/-- The `Partial<EditorState>` argument of `recordChange`: only the four
fields the function reads are ever supplied by callers. -/
structure Changes where
  text : Option (List Char)
  selectionStart : Option Nat
  selectionEnd : Option Nat
  selectionDirection : Option SelectionDirection
deriving DecidableEq, Repr

/-- A `Changes` value supplying nothing (the empty `Partial`). -/
def Changes.empty : Changes := ⟨Option.none, Option.none, Option.none, Option.none⟩

/-- `HISTORY_LIMIT` constant. -/
def HISTORY_LIMIT : Nat := 1000

/-- `HISTORY_TIME_GAP` constant (milliseconds). -/
def HISTORY_TIME_GAP : Nat := 200

/-- The spread `{...state, ...changes}`: each field of `changes` that is
present overrides the corresponding field of `state`. -/
def mergeChanges (s : EditorState) (c : Changes) : EditorState :=
  { s with
    text := c.text.getD s.text
    selectionStart := c.selectionStart.getD s.selectionStart
    selectionEnd := c.selectionEnd.getD s.selectionEnd
    selectionDirection := c.selectionDirection.getD s.selectionDirection }

/-- The candidate history record built by `recordChange`
(`changes.x ?? state.x` for each field, plus the current timestamp). -/
def candidateRecord (s : EditorState) (c : Changes) (now : Nat) : EditorHistoryRecord :=
  { text := c.text.getD s.text
    selectionStart := c.selectionStart.getD s.selectionStart
    selectionEnd := c.selectionEnd.getD s.selectionEnd
    selectionDirection := c.selectionDirection.getD s.selectionDirection
    timestamp := now }

/-- First stage of `recordChange`: "When something updates after an undo,
drop the redo operations" — `if (stack.length && offset > -1 && offset <
stack.length - 1)` then `stack.slice(0, offset + 1)`.  (`offset > -1` always
holds for `Nat` offsets.) -/
def dropRedo (stack : List EditorHistoryRecord) (offset : Nat) :
    List EditorHistoryRecord × Nat :=
  if stack.length ≠ 0 ∧ offset < stack.length - 1 then
    (stack.take (offset + 1), offset)
  else
    (stack, offset)

/-- Second stage of `recordChange`: "Limit the history length" — when
`count > HISTORY_LIMIT`, drop `extras = count - HISTORY_LIMIT` from the
front and set the offset to `Math.max(offset - extras, 0)` (computed from the
ORIGINAL offset, as in the source). -/
def limitLen (offset0 : Nat) (p : List EditorHistoryRecord × Nat) :
    List EditorHistoryRecord × Nat :=
  let count := p.1.length
  if HISTORY_LIMIT < count then
    (p.1.drop (count - HISTORY_LIMIT), max (offset0 - (count - HISTORY_LIMIT)) 0)
  else
    p

/-- Third stage of `recordChange`: "Group changes that happen in quick
succession" — when `last = newStack[newOffset]` exists and
`record.timestamp - last.timestamp < HISTORY_TIME_GAP`, coalesce (replace
that slot with the candidate keeping the old timestamp); otherwise push the
candidate and increment the offset. -/
def pushOrCoalesce (record : EditorHistoryRecord) (p : List EditorHistoryRecord × Nat) :
    List EditorHistoryRecord × Nat :=
  match p.1.get? p.2 with
  | some last =>
      if record.timestamp - last.timestamp < HISTORY_TIME_GAP then
        (p.1.set p.2 { record with timestamp := last.timestamp }, p.2)
      else
        (p.1 ++ [record], p.2 + 1)
  | Option.none => (p.1 ++ [record], p.2 + 1)

/-- `recordChange(state, changes)` from `EditorContext`, with `Date.now()`
threaded as `now`. -/
def recordChange (s : EditorState) (c : Changes) (now : Nat) : EditorState :=
  match s.history with
  | Option.none => mergeChanges s c
  | some h =>
      let record := candidateRecord s c now
      let p := pushOrCoalesce record (limitLen h.offset (dropRedo h.stack h.offset))
      { mergeChanges s c with history := some ⟨p.1, p.2⟩ }

/-- Editor actions (`EditorAction` union).  The `prefix`/`postfix` payload
fields of `ADD_PREFIX_POSTFIX` are named `pfx`/`sfx` here; `KEY_DOWN` and
`PASTE` payloads are dropped because the reducer never reads them (they flow
to plugins through `enhancedDispatch`, modelled separately); `UNKNOWN`
carries the type string of the open-ended `{type: string}` fallback arm. -/
inductive EditorAction where
  | SET_TEXT (text : List Char)
  | SET_SELECTION (selectionStart selectionEnd : Nat)
      (selectionDirection : Option SelectionDirection)
  | SET_FOCUS (payload : Bool)
  | ADD_PREFIX_POSTFIX (pfx sfx : List Char)
  | UNDO
  | REDO
  | SET_TEXT_AND_SELECTION (text : List Char) (selectionStart selectionEnd : Nat)
      (selectionDirection : Option SelectionDirection)
  | REPLACE_SELECTION (text : List Char) (selected : Option Bool)
  | KEY_DOWN
  | PASTE
  | UNKNOWN (ty : String)

/-- The action-type strings handled by named `case` arms of the reducer. -/
def knownActionTypes : List String :=
  ["SET_TEXT", "SET_SELECTION", "SET_FOCUS", "ADD_PREFIX_POSTFIX", "UNDO",
   "REDO", "SET_TEXT_AND_SELECTION", "REPLACE_SELECTION", "KEY_DOWN", "PASTE"]

/-- A plugin-level reducer hook (`plugin.reducer`): returns `none` where the
JavaScript hook returns `null`. -/
abbrev PluginReducer : Type :=
  EditorState → EditorAction → Option EditorState

/-- The `state.plugins` mapping, as an ordered association list from plugin
id to its optional reducer hook (`none` models a plugin value that is not an
object with a `reducer` key). -/
abbrev Plugins : Type :=
  List (String × Option PluginReducer)

/-- The plugin loop at the top of `editorReducer`: offer the action to each
plugin's reducer hook in mapping order; the first non-null result wins. -/
def runPluginReducers (ps : Plugins) (s : EditorState) (a : EditorAction) :
    Option EditorState :=
  match ps with
  | [] => Option.none
  | (_, Option.none) :: rest => runPluginReducers rest s a
  | (_, some f) :: rest =>
      match f s a with
      | some result => some result
      | Option.none => runPluginReducers rest s a

/-- Fallback record used for the (unreachable on well-formed states) case
where `stack[offset - 1]` / `stack[offset + 1]` is out of range; the
JavaScript source would fault there dereferencing `undefined`. -/
def dummyRecord : EditorHistoryRecord :=
  ⟨[], 0, 0, SelectionDirection.none, 0⟩

/-- The `switch (action.type)` body of `editorReducer` (every built-in
case), with `Date.now()` threaded as `now`. -/
def builtinReducer (s : EditorState) (a : EditorAction) (now : Nat) : EditorState :=
  match a with
  | .SET_FOCUS editorHasFocus => { s with editorHasFocus := editorHasFocus }
  | .ADD_PREFIX_POSTFIX pfx sfx =>
      let textBefore := s.text.take s.selectionStart
      let selectedText := (s.text.take s.selectionEnd).drop s.selectionStart
      let textAfter := s.text.drop s.selectionEnd
      let updatedText := textBefore ++ pfx ++ selectedText ++ sfx ++ textAfter
      let newSelectionStart := s.selectionStart + pfx.length
      let newSelectionEnd := newSelectionStart + selectedText.length
      -- Prevent duplicate history entries
      if s.text = updatedText ∧ s.selectionStart = newSelectionStart ∧
          s.selectionEnd = newSelectionEnd then
        s
      else
        recordChange s
          { text := some updatedText
            selectionStart := some newSelectionStart
            selectionEnd := some newSelectionEnd
            selectionDirection := Option.none } now
  | .UNDO =>
      match s.history with
      | Option.none => s
      | some h =>
          if h.offset ≤ 0 then s
          else
            let prevRecord := (h.stack.get? (h.offset - 1)).getD dummyRecord
            { s with
              text := prevRecord.text
              selectionStart := prevRecord.selectionStart
              selectionEnd := prevRecord.selectionEnd
              selectionDirection := prevRecord.selectionDirection
              history := some ⟨h.stack, h.offset - 1⟩ }
  | .REDO =>
      match s.history with
      | Option.none => s
      | some h =>
          if h.stack.length - 1 ≤ h.offset then s
          else
            let nextRecord := (h.stack.get? (h.offset + 1)).getD dummyRecord
            { s with
              text := nextRecord.text
              selectionStart := nextRecord.selectionStart
              selectionEnd := nextRecord.selectionEnd
              selectionDirection := nextRecord.selectionDirection
              history := some ⟨h.stack, h.offset + 1⟩ }
  | .SET_SELECTION selectionStart selectionEnd selectionDirection =>
      -- strict-equality duplicate check: an omitted (undefined) direction in
      -- the payload never equals the state's direction string
      if s.selectionStart = selectionStart ∧ s.selectionEnd = selectionEnd ∧
          some s.selectionDirection = selectionDirection then
        s
      else
        recordChange s
          { text := Option.none
            selectionStart := some selectionStart
            selectionEnd := some selectionEnd
            selectionDirection := some (selectionDirection.getD SelectionDirection.none) } now
  | .SET_TEXT text =>
      if s.text = text then s
      else
        recordChange s
          { text := some text
            selectionStart := Option.none
            selectionEnd := Option.none
            selectionDirection := Option.none } now
  | .SET_TEXT_AND_SELECTION text selectionStart selectionEnd selectionDirection =>
      if s.text = text ∧ s.selectionStart = selectionStart ∧
          s.selectionEnd = selectionEnd ∧
          some s.selectionDirection = selectionDirection then
        s
      else
        recordChange s
          { text := some text
            selectionStart := some selectionStart
            selectionEnd := some selectionEnd
            selectionDirection := some (selectionDirection.getD SelectionDirection.none) } now
  | .REPLACE_SELECTION newText selected =>
      let textBefore := s.text.take s.selectionStart
      let textAfter := s.text.drop s.selectionEnd
      let updatedText := textBefore ++ newText ++ textAfter
      -- the source compares state.selectionStart/End against the values just
      -- destructured from state itself, so only the text comparison can fail
      if s.text = updatedText ∧ s.selectionStart = s.selectionStart ∧
          s.selectionEnd = s.selectionEnd then
        s
      else
        recordChange s
          { text := some updatedText
            selectionStart := some (if selected.getD false then s.selectionStart
              else s.selectionStart + newText.length)
            selectionEnd := some (s.selectionStart + newText.length)
            selectionDirection := Option.none } now
  | .KEY_DOWN => s
  | .PASTE => s
  | .UNKNOWN _ => s

/-- `editorReducer(state, action)`: plugin hooks first (first non-null
result short-circuits), then the built-in switch. -/
def editorReducer (ps : Plugins) (s : EditorState) (a : EditorAction) (now : Nat) :
    EditorState :=
  match runPluginReducers ps s a with
  | some result => result
  | Option.none => builtinReducer s a now

/-! ## Event distribution (`enhancedDispatch`) -/

/-- The `KeyDownEvent` payload (the opaque `nativeEvent` is dropped: plugins
only call its `preventDefault`, a DOM side effect outside the state model). -/
structure KeyDownEvent where
  key : String
  ctrlKey : Bool
  metaKey : Bool
  shiftKey : Bool
  altKey : Bool

/-- The `PasteEvent` payload; the `DataTransfer` is abstracted to the pasted
text, the only datum plugins read from it. -/
structure PasteEvent where
  clipboardData : String

/-- `PluginHandlers`: a plugin's optional event handlers, modelled by their
observable decision (`true` = consumed the event). -/
structure PluginHandlers where
  keyDown : Option (KeyDownEvent → EditorState → Bool)
  paste : Option (PasteEvent → EditorState → Bool)

/-- The `pluginsRef` map: insertion-ordered plugin id / handler pairs. -/
abbrev PluginMap : Type :=
  List (String × PluginHandlers)

/-- The keyDown loop of `enhancedDispatch`: walk the registered plugins in
order, invoke each `keyDown` handler, stop after the first that returns
`true`.  Returns the ids of the plugins whose handler was invoked, in
invocation order. -/
def distributeKeyDown (plugins : PluginMap) (ev : KeyDownEvent) (st : EditorState) :
    List String :=
  match plugins with
  | [] => []
  | (id, handlers) :: rest =>
      match handlers.keyDown with
      | Option.none => distributeKeyDown rest ev st
      | some h =>
          if h ev st then [id]
          else id :: distributeKeyDown rest ev st

/-- The paste loop of `enhancedDispatch`, identical in shape to the keyDown
loop but selecting the `paste` handler. -/
def distributePaste (plugins : PluginMap) (ev : PasteEvent) (st : EditorState) :
    List String :=
  match plugins with
  | [] => []
  | (id, handlers) :: rest =>
      match handlers.paste with
      | Option.none => distributePaste rest ev st
      | some h =>
          if h ev st then [id]
          else id :: distributePaste rest ev st

/-! ## `isSelectionInMarkdownLink` (AutoLink support) -/

/-- `sliceStart.lastIndexOf("](")`: the greatest index at which the
two-character pattern occurs wholly inside `l`, if any. -/
def lastIndexOfLinkOpen (l : List Char) : Option Nat :=
  (List.range l.length).foldl
    (fun acc i =>
      if l.get? i = some ']' ∧ l.get? (i + 1) = some '(' then some i else acc)
    Option.none

/-- The backward bracket-matching loop of `isSelectionInMarkdownLink`:
starting at index `i` with running count `cnt` (`bracketCount`), scan down to
index 0; `]` increments the count, `[` decrements it and, on reaching zero,
yields that index. -/
def findOpenBracket (t : List Char) : Nat → Nat → Option Nat
  | 0, cnt =>
      let c := t.get? 0
      let cnt1 := if c = some ']' then cnt + 1 else cnt
      if c = some '[' ∧ cnt1 - 1 = 0 then some 0 else Option.none
  | i + 1, cnt =>
      let c := t.get? (i + 1)
      let cnt1 := if c = some ']' then cnt + 1 else cnt
      if c = some '[' then
        if cnt1 - 1 = 0 then some (i + 1)
        else findOpenBracket t i (cnt1 - 1)
      else
        findOpenBracket t i cnt1

/-- `isSelectionInMarkdownLink(text, selectionStart, selectionEnd)` from the
AutoLink support module. -/
def isSelectionInMarkdownLink (text : List Char) (selectionStart selectionEnd : Nat) :
    Bool :=
  -- Search backwards for the nearest preceding "](" to the selection start
  let sliceStart := text.take selectionStart
  match lastIndexOfLinkOpen sliceStart with
  | Option.none => false
  | some openParenIndex =>
      -- Find the matching opening bracket by counting brackets backwards
      -- (the JavaScript loop runs from openParenIndex - 1 down to 0, so it
      -- does not run at all when openParenIndex = 0)
      let openBracketIndex :=
        if openParenIndex = 0 then Option.none
        else findOpenBracket text (openParenIndex - 1) 1
      match openBracketIndex with
      | Option.none => false
      | some _ =>
          -- Search forward for the nearest following ")" from the selection end
          let sliceEnd := text.drop selectionEnd
          match sliceEnd.findIdx? (· = ')') with
          | Option.none => false
          | some closeParenIndex =>
              let urlStart := openParenIndex + 2
              let urlEnd := text.length - sliceEnd.length + closeParenIndex
              decide (urlStart ≤ selectionStart ∧ selectionEnd ≤ urlEnd)

/-! ## Sequencing helpers -/

/-- The text/selection quadruple of a state — the fields the undo/redo laws
speak about. -/
def coreFields (s : EditorState) :
    List Char × Nat × Nat × SelectionDirection :=
  (s.text, s.selectionStart, s.selectionEnd, s.selectionDirection)

/-- Fold a list of `(changes, timestamp)` pairs through `recordChange`: the
shape every mutating reducer case takes after its duplicate check passes. -/
def applyChangesList (s : EditorState) : List (Changes × Nat) → EditorState
  | [] => s
  | (c, t) :: rest => applyChangesList (recordChange s c t) rest

/-- Dispatch `UNDO` through the reducer (no plugins intercept; the reducer
ignores the timestamp for `UNDO`). -/
def applyUndo (s : EditorState) : EditorState :=
  editorReducer [] s EditorAction.UNDO 0

/-- Dispatch `REDO` through the reducer. -/
def applyRedo (s : EditorState) : EditorState :=
  editorReducer [] s EditorAction.REDO 0

/-- Iterate `applyUndo`. -/
def undoN (s : EditorState) : Nat → EditorState
  | 0 => s
  | n + 1 => undoN (applyUndo s) n

/-- Timestamp chain: starting from `t`, each successive timestamp is at
least `HISTORY_TIME_GAP` later than the one before it (so no coalescing can
occur). -/
def gapOK : Nat → List Nat → Bool
  | _, [] => true
  | t, t1 :: rest => t + HISTORY_TIME_GAP ≤ t1 && gapOK t1 rest

/-- The length of the history stack (`0` when history is absent). -/
def stackLengthOf (s : EditorState) : Nat :=
  match s.history with
  | Option.none => 0
  | some h => h.stack.length

/-- The ids of the plugins that expose a `keyDown` handler, in registration
order. -/
def keyDownIds (ps : PluginMap) : List String :=
  ps.filterMap (fun e => e.2.keyDown.map (fun _ => e.1))

/-- The ids of the plugins that expose a `paste` handler, in registration
order. -/
def pasteIds (ps : PluginMap) : List String :=
  ps.filterMap (fun e => e.2.paste.map (fun _ => e.1))

/-! ## Concrete instances -/

/-- A seed history record for text `"a"`. -/
def recA : EditorHistoryRecord := ⟨['a'], 0, 0, SelectionDirection.none, 0⟩

/-- A history record for text `"b"` at timestamp 200. -/
def recB : EditorHistoryRecord := ⟨['b'], 0, 0, SelectionDirection.none, 200⟩

/-- A state whose stack holds exactly `HISTORY_LIMIT` records, offset at the
last one (the state reached after filling the history to the limit). -/
def stateAtLimit : EditorState :=
  ⟨['a'], 0, 0, SelectionDirection.none, false,
    some ⟨List.replicate HISTORY_LIMIT recA, HISTORY_LIMIT - 1⟩⟩

/-- A state whose stack holds `HISTORY_LIMIT + 1` records (the steady state
the implementation reaches once the limit has been passed). -/
def stateOverLimit : EditorState :=
  ⟨['a'], 0, 0, SelectionDirection.none, false,
    some ⟨List.replicate (HISTORY_LIMIT + 1) recA, HISTORY_LIMIT⟩⟩

/-- A freshly initialised state: text `"a"`, seed record, offset 0. -/
def seedState : EditorState :=
  ⟨['a'], 0, 0, SelectionDirection.none, false, some ⟨[recA], 0⟩⟩

/-- The state after pushing a `"b"` record onto `seedState` at time 200. -/
def afterPushB : EditorState :=
  ⟨['b'], 0, 0, SelectionDirection.none, false, some ⟨[recA, recB], 1⟩⟩

/-- A history-free state with text `"a"`. -/
def noHistState : EditorState :=
  ⟨['a'], 0, 0, SelectionDirection.none, false, Option.none⟩

/-- The Bold-example state `{text:"abc", selectionStart:0, selectionEnd:3}`. -/
def sampleAbc : EditorState :=
  ⟨"abc".toList, 0, 3, SelectionDirection.none, false, Option.none⟩

/-- A `SET_SELECTION`-duplicate probe state with a one-record history. -/
def dirProbeState : EditorState :=
  ⟨['a'], 1, 2, SelectionDirection.none, false,
    some ⟨[⟨['a'], 1, 2, SelectionDirection.none, 0⟩], 0⟩⟩

/-- A `Changes` value setting the text to `"b"`. -/
def stepB : Changes := ⟨some ['b'], Option.none, Option.none, Option.none⟩

/-- A `Changes` value setting the text to `"c"`. -/
def stepC : Changes := ⟨some ['c'], Option.none, Option.none, Option.none⟩

/-- The AutoLink example text `"[link](https://example.com)"`. -/
def linkText : List Char := "[link](https://example.com)".toList

/-- A keyDown handler that always claims the event. -/
def claimKey : KeyDownEvent → EditorState → Bool := fun _ _ => true

/-- A paste handler that always claims the event. -/
def claimPaste : PasteEvent → EditorState → Bool := fun _ _ => true

/-- A sample keyDown event (Cmd+B). -/
def sampleKeyEvent : KeyDownEvent := ⟨"b", false, true, false, false⟩

/-- A sample paste event. -/
def samplePasteEvent : PasteEvent := ⟨"https://example.com"⟩

/-- A plugin-level reducer hook that declines every action. -/
def declineHook : PluginReducer := fun _ _ => Option.none

/-- A plugin-level reducer hook that overrides every action with
`noHistState`. -/
def overrideHook : PluginReducer := fun _ _ => some noHistState

/-! ## Helper lemmas -/

theorem dropRedo_at_end (stack : List EditorHistoryRecord) (offset : Nat)
    (h : ¬ offset < stack.length - 1) : dropRedo stack offset = (stack, offset) := by
  unfold dropRedo
  rw [if_neg]
  rintro ⟨-, h2⟩
  exact h h2

theorem limitLen_le (offset0 : Nat) (p : List EditorHistoryRecord × Nat)
    (h : p.1.length ≤ HISTORY_LIMIT) : limitLen offset0 p = p := by
  unfold limitLen
  rw [if_neg]
  omega

theorem limitLen_length_le (offset0 : Nat) (p : List EditorHistoryRecord × Nat) :
    (limitLen offset0 p).1.length ≤ HISTORY_LIMIT := by
  simp only [limitLen]
  split
  · simp
    omega
  · simp only [HISTORY_LIMIT] at *
    omega

theorem pushOrCoalesce_fresh (record r : EditorHistoryRecord)
    (p : List EditorHistoryRecord × Nat) (hget : p.1.get? p.2 = some r)
    (h : ¬ record.timestamp - r.timestamp < HISTORY_TIME_GAP) :
    pushOrCoalesce record p = (p.1 ++ [record], p.2 + 1) := by
  unfold pushOrCoalesce
  rw [hget]
  simp [h]

theorem pushOrCoalesce_near (record r : EditorHistoryRecord)
    (p : List EditorHistoryRecord × Nat) (hget : p.1.get? p.2 = some r)
    (h : record.timestamp - r.timestamp < HISTORY_TIME_GAP) :
    pushOrCoalesce record p =
      (p.1.set p.2 { record with timestamp := r.timestamp }, p.2) := by
  unfold pushOrCoalesce
  rw [hget]
  simp [h]

theorem pushOrCoalesce_length_le (record : EditorHistoryRecord)
    (p : List EditorHistoryRecord × Nat) :
    (pushOrCoalesce record p).1.length ≤ p.1.length + 1 := by
  unfold pushOrCoalesce
  split
  · split <;> simp
  · simp

theorem recordChange_text (s : EditorState) (c : Changes) (now : Nat) :
    (recordChange s c now).text = c.text.getD s.text := by
  unfold recordChange
  cases s.history <;> simp [mergeChanges]

theorem recordChange_selectionStart (s : EditorState) (c : Changes) (now : Nat) :
    (recordChange s c now).selectionStart = c.selectionStart.getD s.selectionStart := by
  unfold recordChange
  cases s.history <;> simp [mergeChanges]

theorem recordChange_selectionEnd (s : EditorState) (c : Changes) (now : Nat) :
    (recordChange s c now).selectionEnd = c.selectionEnd.getD s.selectionEnd := by
  unfold recordChange
  cases s.history <;> simp [mergeChanges]

theorem recordChange_selectionDirection (s : EditorState) (c : Changes) (now : Nat) :
    (recordChange s c now).selectionDirection =
      c.selectionDirection.getD s.selectionDirection := by
  unfold recordChange
  cases s.history <;> simp [mergeChanges]

/-- `recordChange` when history is present, with the three stages explicit. -/
theorem recordChange_some (s : EditorState) (h : EditorHistory) (c : Changes)
    (now : Nat) (hh : s.history = some h) :
    recordChange s c now =
      { mergeChanges s c with
        history := some
          ⟨(pushOrCoalesce (candidateRecord s c now)
              (limitLen h.offset (dropRedo h.stack h.offset))).1,
            (pushOrCoalesce (candidateRecord s c now)
              (limitLen h.offset (dropRedo h.stack h.offset))).2⟩ } := by
  unfold recordChange
  rw [hh]

/-- `recordChange` in the clean-push configuration: offset at the end of the
stack, stack within the limit, candidate at least `HISTORY_TIME_GAP` newer
than the record at the offset. -/
theorem recordChange_push (s : EditorState) (h : EditorHistory) (c : Changes)
    (now : Nat) (r : EditorHistoryRecord)
    (hh : s.history = some h)
    (hoff : h.offset = h.stack.length - 1)
    (hget : h.stack.get? h.offset = some r)
    (hcap : h.stack.length ≤ HISTORY_LIMIT)
    (hfresh : r.timestamp + HISTORY_TIME_GAP ≤ now) :
    recordChange s c now =
      { mergeChanges s c with
        history := some ⟨h.stack ++ [candidateRecord s c now], h.offset + 1⟩ } := by
  have h1 : dropRedo h.stack h.offset = (h.stack, h.offset) :=
    dropRedo_at_end _ _ (by omega)
  rw [recordChange_some s h c now hh, h1, limitLen_le _ _ hcap,
    pushOrCoalesce_fresh (candidateRecord s c now) r _ hget
      (by simp only [candidateRecord]; omega)]

/-- `recordChange` in the general-push configuration: the offset anywhere in
range (a live redo branch, if any, is first truncated to
`stack.take (offset + 1)`; when the offset is at the end that truncation is
the whole stack), the truncated stack within the limit, and the candidate at
least `HISTORY_TIME_GAP` newer than the record at the offset. -/
theorem recordChange_push_general (s : EditorState) (h : EditorHistory) (c : Changes)
    (now : Nat) (r : EditorHistoryRecord)
    (hh : s.history = some h)
    (hlt : h.offset < h.stack.length)
    (hget : h.stack.get? h.offset = some r)
    (hcap : h.offset + 1 ≤ HISTORY_LIMIT)
    (hfresh : r.timestamp + HISTORY_TIME_GAP ≤ now) :
    recordChange s c now =
      { mergeChanges s c with
        history := some ⟨h.stack.take (h.offset + 1) ++ [candidateRecord s c now],
          h.offset + 1⟩ } := by
  rcases Nat.lt_or_ge h.offset (h.stack.length - 1) with hbr | hend
  · have hd : dropRedo h.stack h.offset = (h.stack.take (h.offset + 1), h.offset) := by
      unfold dropRedo
      rw [if_pos ⟨by omega, hbr⟩]
    have hlen : (h.stack.take (h.offset + 1)).length = h.offset + 1 := by
      rw [List.length_take]
      omega
    have hget2 : (h.stack.take (h.offset + 1)).get? h.offset = some r := by
      rw [List.get?_eq_getElem?, List.getElem?_take_of_lt (by omega),
        ← List.get?_eq_getElem?]
      exact hget
    rw [recordChange_some s h c now hh, hd,
      limitLen_le _ _ (by rw [hlen]; omega),
      pushOrCoalesce_fresh (candidateRecord s c now) r _ hget2
        (by simp only [candidateRecord]; omega)]
  · have hoff : h.offset = h.stack.length - 1 := by omega
    have htake : h.stack.take (h.offset + 1) = h.stack :=
      List.take_of_length_le (by omega)
    rw [recordChange_push s h c now r hh hoff hget (by omega) hfresh, htake]

/-- `recordChange` in the coalescing configuration: offset at the end of the
stack, stack within the limit, candidate within `HISTORY_TIME_GAP` of the
record at the offset. -/
theorem recordChange_coalesce (s : EditorState) (h : EditorHistory) (c : Changes)
    (now : Nat) (r : EditorHistoryRecord)
    (hh : s.history = some h)
    (hoff : h.offset = h.stack.length - 1)
    (hget : h.stack.get? h.offset = some r)
    (hcap : h.stack.length ≤ HISTORY_LIMIT)
    (hnear : now - r.timestamp < HISTORY_TIME_GAP) :
    recordChange s c now =
      { mergeChanges s c with
        history := some
          ⟨h.stack.set h.offset { candidateRecord s c now with timestamp := r.timestamp },
            h.offset⟩ } := by
  have h1 : dropRedo h.stack h.offset = (h.stack, h.offset) :=
    dropRedo_at_end _ _ (by omega)
  rw [recordChange_some s h c now hh, h1, limitLen_le _ _ hcap,
    pushOrCoalesce_near (candidateRecord s c now) r _ hget
      (by simpa [candidateRecord] using hnear)]

theorem runPluginReducers_nil (s : EditorState) (a : EditorAction) :
    runPluginReducers [] s a = Option.none := rfl

theorem editorReducer_no_plugins (ps : Plugins) (s : EditorState) (a : EditorAction)
    (now : Nat) (hplug : runPluginReducers ps s a = Option.none) :
    editorReducer ps s a now = builtinReducer s a now := by
  unfold editorReducer
  rw [hplug]

/-- `UNDO` through the reducer, at a positive offset with an in-range
predecessor record. -/
theorem applyUndo_spec (s : EditorState) (h : EditorHistory) (r : EditorHistoryRecord)
    (hh : s.history = some h) (hpos : 0 < h.offset)
    (hget : h.stack.get? (h.offset - 1) = some r) :
    applyUndo s =
      { s with
        text := r.text
        selectionStart := r.selectionStart
        selectionEnd := r.selectionEnd
        selectionDirection := r.selectionDirection
        history := some ⟨h.stack, h.offset - 1⟩ } := by
  unfold applyUndo
  rw [editorReducer_no_plugins _ _ _ _ (runPluginReducers_nil _ _)]
  simp only [builtinReducer, hh, hget, if_neg (show ¬ h.offset ≤ 0 by omega),
    Option.getD_some]

/-- `REDO` through the reducer, below the last index with an in-range
successor record. -/
theorem applyRedo_spec (s : EditorState) (h : EditorHistory) (r : EditorHistoryRecord)
    (hh : s.history = some h) (hlt : h.offset < h.stack.length - 1)
    (hget : h.stack.get? (h.offset + 1) = some r) :
    applyRedo s =
      { s with
        text := r.text
        selectionStart := r.selectionStart
        selectionEnd := r.selectionEnd
        selectionDirection := r.selectionDirection
        history := some ⟨h.stack, h.offset + 1⟩ } := by
  unfold applyRedo
  rw [editorReducer_no_plugins _ _ _ _ (runPluginReducers_nil _ _)]
  simp only [builtinReducer, hh, hget,
    if_neg (show ¬ h.stack.length - 1 ≤ h.offset by omega), Option.getD_some]

theorem runPluginReducers_skip_declining (pre rest : Plugins) (s : EditorState)
    (a : EditorAction)
    (hpre : ∀ e ∈ pre, ∀ g, e.2 = some g → g s a = Option.none) :
    runPluginReducers (pre ++ rest) s a = runPluginReducers rest s a := by
  induction pre with
  | nil => rfl
  | cons e pre ih =>
      obtain ⟨id, hook⟩ := e
      cases hook with
      | none =>
          simpa [runPluginReducers] using
            ih (fun e he g hg => hpre e (List.mem_cons_of_mem _ he) g hg)
      | some g =>
          have hg : g s a = Option.none :=
            hpre (id, some g) (List.mem_cons_self _ _) g rfl
          simpa [runPluginReducers, hg] using
            ih (fun e he g hg => hpre e (List.mem_cons_of_mem _ he) g hg)

theorem distributeKeyDown_skip_declining (pre rest : PluginMap) (ev : KeyDownEvent)
    (st : EditorState)
    (hpre : ∀ e ∈ pre, ∀ g, e.2.keyDown = some g → g ev st = false) :
    distributeKeyDown (pre ++ rest) ev st =
      keyDownIds pre ++ distributeKeyDown rest ev st := by
  induction pre with
  | nil => simp [keyDownIds]
  | cons e pre ih =>
      obtain ⟨id, hs⟩ := e
      have ih2 := ih (fun e he g hg => hpre e (List.mem_cons_of_mem _ he) g hg)
      cases hk : hs.keyDown with
      | none =>
          simp [distributeKeyDown, hk, keyDownIds, List.filterMap_cons]
          simpa [keyDownIds] using ih2
      | some g =>
          have hg : g ev st = false :=
            hpre (id, hs) (List.mem_cons_self _ _) g hk
          simp [distributeKeyDown, hk, hg, keyDownIds, List.filterMap_cons]
          simpa [keyDownIds] using ih2

theorem distributePaste_skip_declining (pre rest : PluginMap) (ev : PasteEvent)
    (st : EditorState)
    (hpre : ∀ e ∈ pre, ∀ g, e.2.paste = some g → g ev st = false) :
    distributePaste (pre ++ rest) ev st =
      pasteIds pre ++ distributePaste rest ev st := by
  induction pre with
  | nil => simp [pasteIds]
  | cons e pre ih =>
      obtain ⟨id, hs⟩ := e
      have ih2 := ih (fun e he g hg => hpre e (List.mem_cons_of_mem _ he) g hg)
      cases hk : hs.paste with
      | none =>
          simp [distributePaste, hk, pasteIds, List.filterMap_cons]
          simpa [pasteIds] using ih2
      | some g =>
          have hg : g ev st = false :=
            hpre (id, hs) (List.mem_cons_self _ _) g hk
          simp [distributePaste, hk, hg, pasteIds, List.filterMap_cons]
          simpa [pasteIds] using ih2

/-! ## Claim theorems -/

/-- C9: the reducer is total and never throws; when no plugin hook
intercepts, dispatching an action whose type is not one of the known action
kinds returns the state unchanged, silently ignoring the unknown action. -/
theorem c9_unknown_action_returns_state (ps : Plugins) (s : EditorState)
    (ty : String) (now : Nat)
    (hplug : runPluginReducers ps s (EditorAction.UNKNOWN ty) = Option.none)
    (hty : ty ∉ knownActionTypes) :
    editorReducer ps s (EditorAction.UNKNOWN ty) now = s := by
  rw [editorReducer_no_plugins _ _ _ _ hplug]
  rfl

/-- Witness for C9 at a concrete state and a concrete unknown type string. -/
theorem c9_witness :
    editorReducer [] noHistState (EditorAction.UNKNOWN "THIRD_PARTY_ACTION") 0 =
      noHistState :=
  c9_unknown_action_returns_state [] noHistState "THIRD_PARTY_ACTION" 0 rfl
    (by decide)

/-- C5: dispatching SET_SELECTION, SET_TEXT, or SET_TEXT_AND_SELECTION with
payload values identical to the corresponding fields of the current state
returns the exact prior state (so the history stack does not grow), provided
no plugin hook intercepts. -/
theorem c5_noop_actions_idempotent (ps : Plugins) (s : EditorState) (now : Nat)
    (h1 : runPluginReducers ps s
      (EditorAction.SET_SELECTION s.selectionStart s.selectionEnd
        (some s.selectionDirection)) = Option.none)
    (h2 : runPluginReducers ps s (EditorAction.SET_TEXT s.text) = Option.none)
    (h3 : runPluginReducers ps s
      (EditorAction.SET_TEXT_AND_SELECTION s.text s.selectionStart s.selectionEnd
        (some s.selectionDirection)) = Option.none) :
    editorReducer ps s
        (EditorAction.SET_SELECTION s.selectionStart s.selectionEnd
          (some s.selectionDirection)) now = s ∧
    editorReducer ps s (EditorAction.SET_TEXT s.text) now = s ∧
    editorReducer ps s
        (EditorAction.SET_TEXT_AND_SELECTION s.text s.selectionStart s.selectionEnd
          (some s.selectionDirection)) now = s := by
  refine ⟨?_, ?_, ?_⟩
  · rw [editorReducer_no_plugins _ _ _ _ h1]
    simp [builtinReducer]
  · rw [editorReducer_no_plugins _ _ _ _ h2]
    simp [builtinReducer]
  · rw [editorReducer_no_plugins _ _ _ _ h3]
    simp [builtinReducer]

/-- Witness for C5 at a concrete state with a one-record history. -/
theorem c5_witness :
    editorReducer [] dirProbeState
        (EditorAction.SET_SELECTION dirProbeState.selectionStart
          dirProbeState.selectionEnd (some dirProbeState.selectionDirection)) 7 =
      dirProbeState ∧
    editorReducer [] dirProbeState (EditorAction.SET_TEXT dirProbeState.text) 7 =
      dirProbeState ∧
    editorReducer [] dirProbeState
        (EditorAction.SET_TEXT_AND_SELECTION dirProbeState.text
          dirProbeState.selectionStart dirProbeState.selectionEnd
          (some dirProbeState.selectionDirection)) 7 =
      dirProbeState :=
  c5_noop_actions_idempotent [] dirProbeState 7 rfl rfl rfl

/-- C3: ADD_PREFIX_POSTFIX produces `before ++ prefix ++ selected ++ postfix
++ after` with the new selection covering exactly the original selected text
shifted right by the prefix length; when the resulting text and selection
already equal the current ones it returns the same state; and the concrete
Bold example on `{text:"abc", 0, 3}` yields `"**abc**"` with selection
`{2, 5}`. -/
theorem c3_wrap_selection (ps : Plugins) (s : EditorState)
    (pfx sfx : List Char) (now : Nat)
    (hplug : runPluginReducers ps s (EditorAction.ADD_PREFIX_POSTFIX pfx sfx) =
      Option.none) :
    ((editorReducer ps s (EditorAction.ADD_PREFIX_POSTFIX pfx sfx) now).text =
        s.text.take s.selectionStart ++ pfx ++
          (s.text.take s.selectionEnd).drop s.selectionStart ++ sfx ++
          s.text.drop s.selectionEnd) ∧
    ((editorReducer ps s (EditorAction.ADD_PREFIX_POSTFIX pfx sfx) now).selectionStart =
        s.selectionStart + pfx.length) ∧
    ((editorReducer ps s (EditorAction.ADD_PREFIX_POSTFIX pfx sfx) now).selectionEnd =
        s.selectionStart + pfx.length +
          ((s.text.take s.selectionEnd).drop s.selectionStart).length) ∧
    (s.text =
        s.text.take s.selectionStart ++ pfx ++
          (s.text.take s.selectionEnd).drop s.selectionStart ++ sfx ++
          s.text.drop s.selectionEnd →
      s.selectionStart = s.selectionStart + pfx.length →
      s.selectionEnd =
        s.selectionStart + pfx.length +
          ((s.text.take s.selectionEnd).drop s.selectionStart).length →
      editorReducer ps s (EditorAction.ADD_PREFIX_POSTFIX pfx sfx) now = s) ∧
    ((editorReducer [] sampleAbc
        (EditorAction.ADD_PREFIX_POSTFIX "**".toList "**".toList) 0).text =
          "**abc**".toList ∧
      (editorReducer [] sampleAbc
        (EditorAction.ADD_PREFIX_POSTFIX "**".toList "**".toList) 0).selectionStart = 2 ∧
      (editorReducer [] sampleAbc
        (EditorAction.ADD_PREFIX_POSTFIX "**".toList "**".toList) 0).selectionEnd = 5) := by
  rw [editorReducer_no_plugins _ _ _ _ hplug]
  refine ⟨?_, ?_, ?_, ?_, by decide⟩
  · simp only [builtinReducer]
    split
    · rename_i hdup
      exact hdup.1
    · simp [recordChange_text]
  · simp only [builtinReducer]
    split
    · rename_i hdup
      exact hdup.2.1
    · simp [recordChange_selectionStart]
  · simp only [builtinReducer]
    split
    · rename_i hdup
      exact hdup.2.2
    · simp [recordChange_selectionEnd]
  · intro ht hss hse
    simp only [builtinReducer]
    rw [if_pos ⟨ht, hss, hse⟩]

/-- Witness for C3 at the Bold-example state. -/
theorem c3_witness :
    (editorReducer [] sampleAbc
        (EditorAction.ADD_PREFIX_POSTFIX "**".toList "**".toList) 0).text =
      sampleAbc.text.take sampleAbc.selectionStart ++ "**".toList ++
        (sampleAbc.text.take sampleAbc.selectionEnd).drop sampleAbc.selectionStart ++
        "**".toList ++ sampleAbc.text.drop sampleAbc.selectionEnd :=
  (c3_wrap_selection [] sampleAbc "**".toList "**".toList 0 rfl).1

/-- C8: with a non-empty plugins mapping, the reducer offers the action to
the plugin-level reducer hooks in mapping order before any built-in case,
and the first hook returning a non-null result short-circuits: that result
becomes the new state and all built-in handling is bypassed. -/
theorem c8_plugin_hook_shortcircuits (pre post : Plugins) (id : String)
    (f : PluginReducer) (s s' : EditorState) (a : EditorAction) (now : Nat)
    (hpre : ∀ e ∈ pre, ∀ g, e.2 = some g → g s a = Option.none)
    (hf : f s a = some s') :
    editorReducer (pre ++ (id, some f) :: post) s a now = s' := by
  unfold editorReducer
  rw [runPluginReducers_skip_declining pre _ s a hpre]
  simp [runPluginReducers, hf]

/-- Witness for C8: a declining hook followed by an overriding hook, on a
mutating action; the override's result is returned and no history is
recorded. -/
theorem c8_witness :
    editorReducer
        ([("decliner", some declineHook)] ++
          ("overrider", some overrideHook) :: [("later", some overrideHook)])
        seedState (EditorAction.SET_TEXT ['x']) 400 = noHistState :=
  c8_plugin_hook_shortcircuits [("decliner", some declineHook)]
    [("later", some overrideHook)] "overrider" overrideHook seedState noHistState
    (EditorAction.SET_TEXT ['x']) 400
    (by
      intro e he g hg
      simp only [List.mem_singleton] at he
      subst he
      simp only at hg
      cases hg
      rfl)
    rfl

/-- C7: for KEY_DOWN and PASTE dispatches, plugin handlers run strictly in
registration order and the first handler returning true stops iteration: the
set of invoked handlers is exactly the handler-bearing prefix up to and
including the first claiming plugin, independent of every later-registered
plugin. -/
theorem c7_first_handler_stops_iteration (pre post : PluginMap)
    (id1 id2 : String) (hs1 hs2 : PluginHandlers)
    (f1 : KeyDownEvent → EditorState → Bool) (f2 : PasteEvent → EditorState → Bool)
    (ev : KeyDownEvent) (pev : PasteEvent) (st : EditorState)
    (hpreK : ∀ e ∈ pre, ∀ g, e.2.keyDown = some g → g ev st = false)
    (hk1 : hs1.keyDown = some f1) (htrue : f1 ev st = true)
    (hpreP : ∀ e ∈ pre, ∀ g, e.2.paste = some g → g pev st = false)
    (hp2 : hs2.paste = some f2) (ptrue : f2 pev st = true) :
    distributeKeyDown (pre ++ (id1, hs1) :: post) ev st = keyDownIds pre ++ [id1] ∧
    distributeKeyDown (pre ++ (id1, hs1) :: post) ev st =
      distributeKeyDown (pre ++ [(id1, hs1)]) ev st ∧
    distributePaste (pre ++ (id2, hs2) :: post) pev st = pasteIds pre ++ [id2] ∧
    distributePaste (pre ++ (id2, hs2) :: post) pev st =
      distributePaste (pre ++ [(id2, hs2)]) pev st := by
  have hK : distributeKeyDown (pre ++ (id1, hs1) :: post) ev st =
      keyDownIds pre ++ [id1] := by
    rw [distributeKeyDown_skip_declining pre _ ev st hpreK]
    simp [distributeKeyDown, hk1, htrue]
  have hK2 : distributeKeyDown (pre ++ [(id1, hs1)]) ev st =
      keyDownIds pre ++ [id1] := by
    rw [distributeKeyDown_skip_declining pre _ ev st hpreK]
    simp [distributeKeyDown, hk1, htrue]
  have hP : distributePaste (pre ++ (id2, hs2) :: post) pev st =
      pasteIds pre ++ [id2] := by
    rw [distributePaste_skip_declining pre _ pev st hpreP]
    simp [distributePaste, hp2, ptrue]
  have hP2 : distributePaste (pre ++ [(id2, hs2)]) pev st =
      pasteIds pre ++ [id2] := by
    rw [distributePaste_skip_declining pre _ pev st hpreP]
    simp [distributePaste, hp2, ptrue]
  exact ⟨hK, hK.trans hK2.symm, hP, hP.trans hP2.symm⟩

/-- Witness for C7: two claiming plugins registered for the same key; only
the earlier one is invoked, the later one never fires. -/
theorem c7_witness :
    distributeKeyDown
        ([("silent", ⟨Option.none, Option.none⟩)] ++
          ("bold-plugin", ⟨some claimKey, Option.none⟩) ::
            [("italic-plugin", ⟨some claimKey, Option.none⟩)])
        sampleKeyEvent noHistState =
      keyDownIds [("silent", ⟨Option.none, Option.none⟩)] ++ ["bold-plugin"] :=
  (c7_first_handler_stops_iteration [("silent", ⟨Option.none, Option.none⟩)]
    [("italic-plugin", ⟨some claimKey, Option.none⟩)] "bold-plugin" "paste-plugin"
    ⟨some claimKey, Option.none⟩ ⟨Option.none, some claimPaste⟩ claimKey claimPaste
    sampleKeyEvent samplePasteEvent noHistState
    (by
      intro e he g hg
      simp only [List.mem_singleton] at he
      subst he
      simp only at hg
      cases hg)
    rfl rfl
    (by
      intro e he g hg
      simp only [List.mem_singleton] at he
      subst he
      simp only at hg
      cases hg)
    rfl rfl).1

/-- C6: `isSelectionInMarkdownLink` returns true iff the nearest `](` before
the selection start exists, the backward bracket-nesting scan from it finds a
matching unmatched `[`, a closing `)` exists at or after the selection end,
and the full selection range falls within the URL span between the `](` and
that `)`; in all other (malformed/unmatched) configurations it returns
false.  Concretely, for `"[link](https://example.com)"` with the selection
fully inside the URL span it returns true. -/
theorem c6_isSelectionInMarkdownLink_characterization
    (text : List Char) (selectionStart selectionEnd : Nat) :
    (isSelectionInMarkdownLink text selectionStart selectionEnd = true ↔
      ∃ op, lastIndexOfLinkOpen (text.take selectionStart) = some op ∧
        op ≠ 0 ∧ (findOpenBracket text (op - 1) 1).isSome ∧
        ∃ cp, (text.drop selectionEnd).findIdx? (· = ')') = some cp ∧
          op + 2 ≤ selectionStart ∧
          selectionEnd ≤ text.length - (text.drop selectionEnd).length + cp) ∧
    isSelectionInMarkdownLink linkText 7 22 = true := by
  refine ⟨?_, by decide⟩
  unfold isSelectionInMarkdownLink
  cases hop : lastIndexOfLinkOpen (text.take selectionStart) with
  | none => simp [hop]
  | some op =>
      by_cases h0 : op = 0
      · subst h0
        simp [hop]
      · simp only [if_neg h0]
        cases hob : findOpenBracket text (op - 1) 1 with
        | none => simp [hob, hop, h0]
        | some ob =>
            cases hcp : (text.drop selectionEnd).findIdx? (· = ')') with
            | none => simp [hob, hop, hcp, h0]
            | some cp => simp [hob, hop, hcp, h0]

/-- C10: when the state's selectionDirection is `none` and SET_SELECTION is
dispatched with the current start/end but the direction omitted from the
payload, the duplicate check fails (the state's direction is never
strictly equal to `undefined`), so recordChange runs: the text, selection
bounds and direction values are all unchanged, yet the history stack grows
by one (when the last record is at least `HISTORY_TIME_GAP` old) and the
result is not the prior state. -/
theorem c10_omitted_direction_not_noop (ps : Plugins) (s : EditorState)
    (h : EditorHistory) (r : EditorHistoryRecord) (now : Nat)
    (hplug : runPluginReducers ps s
      (EditorAction.SET_SELECTION s.selectionStart s.selectionEnd Option.none) =
        Option.none)
    (hdir : s.selectionDirection = SelectionDirection.none)
    (hh : s.history = some h)
    (hoff : h.offset = h.stack.length - 1)
    (hget : h.stack.get? h.offset = some r)
    (hcap : h.stack.length ≤ HISTORY_LIMIT)
    (hfresh : r.timestamp + HISTORY_TIME_GAP ≤ now) :
    (editorReducer ps s (EditorAction.SET_SELECTION s.selectionStart
        s.selectionEnd Option.none) now).text = s.text ∧
    (editorReducer ps s (EditorAction.SET_SELECTION s.selectionStart
        s.selectionEnd Option.none) now).selectionStart = s.selectionStart ∧
    (editorReducer ps s (EditorAction.SET_SELECTION s.selectionStart
        s.selectionEnd Option.none) now).selectionEnd = s.selectionEnd ∧
    (editorReducer ps s (EditorAction.SET_SELECTION s.selectionStart
        s.selectionEnd Option.none) now).selectionDirection = s.selectionDirection ∧
    stackLengthOf (editorReducer ps s (EditorAction.SET_SELECTION s.selectionStart
        s.selectionEnd Option.none) now) = stackLengthOf s + 1 ∧
    editorReducer ps s (EditorAction.SET_SELECTION s.selectionStart
        s.selectionEnd Option.none) now ≠ s := by
  have hkey : editorReducer ps s (EditorAction.SET_SELECTION s.selectionStart
      s.selectionEnd Option.none) now =
      { mergeChanges s ⟨Option.none, some s.selectionStart, some s.selectionEnd,
          some SelectionDirection.none⟩ with
        history := some ⟨h.stack ++
          [candidateRecord s ⟨Option.none, some s.selectionStart,
            some s.selectionEnd, some SelectionDirection.none⟩ now],
          h.offset + 1⟩ } := by
    rw [editorReducer_no_plugins _ _ _ _ hplug]
    simp only [builtinReducer]
    rw [if_neg (by simp)]
    exact recordChange_push s h _ now r hh hoff hget hcap hfresh
  have hlen : stackLengthOf (editorReducer ps s (EditorAction.SET_SELECTION
      s.selectionStart s.selectionEnd Option.none) now) = stackLengthOf s + 1 := by
    rw [hkey]
    simp [stackLengthOf, hh]
  refine ⟨?_, ?_, ?_, ?_, hlen, ?_⟩
  · rw [hkey]
    simp [mergeChanges]
  · rw [hkey]
    simp [mergeChanges]
  · rw [hkey]
    simp [mergeChanges]
  · rw [hkey]
    simp [mergeChanges, hdir]
  · intro he
    rw [he] at hlen
    omega

/-- Witness for C10 at a concrete one-record state. -/
theorem c10_witness :
    (editorReducer [] dirProbeState (EditorAction.SET_SELECTION
        dirProbeState.selectionStart dirProbeState.selectionEnd Option.none)
        500).selectionDirection = dirProbeState.selectionDirection ∧
    stackLengthOf (editorReducer [] dirProbeState (EditorAction.SET_SELECTION
        dirProbeState.selectionStart dirProbeState.selectionEnd Option.none) 500) =
      stackLengthOf dirProbeState + 1 :=
  have hc := c10_omitted_direction_not_noop [] dirProbeState
    ⟨[⟨['a'], 1, 2, SelectionDirection.none, 0⟩], 0⟩
    ⟨['a'], 1, 2, SelectionDirection.none, 0⟩ 500 rfl rfl rfl (by decide)
    (by decide) (by decide) (by decide)
  ⟨hc.2.2.2.1, hc.2.2.2.2.1⟩

/-- C4: when the record at the current offset is within
`HISTORY_TIME_GAP` of the candidate's timestamp, `recordChange` coalesces:
the candidate replaces that record's content keeping the original timestamp
and the stack does not grow; consequently two `SET_TEXT` actions whose
timestamps are less than 200 ms apart produce exactly one new history
record, holding the earlier timestamp and the later text. -/
theorem c4_history_coalescing (s : EditorState) (h : EditorHistory)
    (c : Changes) (r : EditorHistoryRecord) (now : Nat)
    (x y : List Char) (t1 t2 : Nat)
    (hh : s.history = some h)
    (hoff : h.offset = h.stack.length - 1)
    (hget : h.stack.get? h.offset = some r)
    (hcap : h.stack.length ≤ HISTORY_LIMIT)
    (hnear : now - r.timestamp < HISTORY_TIME_GAP)
    (hcap2 : h.stack.length < HISTORY_LIMIT)
    (hfresh1 : r.timestamp + HISTORY_TIME_GAP ≤ t1)
    (ht12 : t1 ≤ t2)
    (hnear2 : t2 - t1 < HISTORY_TIME_GAP)
    (hx : s.text ≠ x) (hxy : x ≠ y) :
    ((recordChange s c now).history = some
        ⟨h.stack.set h.offset
          { candidateRecord s c now with timestamp := r.timestamp }, h.offset⟩ ∧
      stackLengthOf (recordChange s c now) = h.stack.length) ∧
    (stackLengthOf (editorReducer []
        (editorReducer [] s (EditorAction.SET_TEXT x) t1)
        (EditorAction.SET_TEXT y) t2) = h.stack.length + 1 ∧
      ∃ stk, (editorReducer [] (editorReducer [] s (EditorAction.SET_TEXT x) t1)
          (EditorAction.SET_TEXT y) t2).history = some ⟨stk, h.offset + 1⟩ ∧
        stk.get? (h.offset + 1) =
          some ⟨y, s.selectionStart, s.selectionEnd, s.selectionDirection, t1⟩) := by
  have hlt : h.offset < h.stack.length := by
    by_contra hcon
    push_neg at hcon
    rw [List.get?_eq_getElem?, List.getElem?_eq_none hcon] at hget
    cases hget
  have ha := recordChange_coalesce s h c now r hh hoff hget hcap hnear
  refine ⟨⟨by rw [ha], by rw [ha]; simp [stackLengthOf]⟩, ?_⟩
  have h1 : editorReducer [] s (EditorAction.SET_TEXT x) t1 =
      { mergeChanges s ⟨some x, Option.none, Option.none, Option.none⟩ with
        history := some ⟨h.stack ++
          [candidateRecord s ⟨some x, Option.none, Option.none, Option.none⟩ t1],
          h.offset + 1⟩ } := by
    rw [editorReducer_no_plugins _ _ _ _ (runPluginReducers_nil _ _)]
    simp only [builtinReducer]
    rw [if_neg hx]
    exact recordChange_push s h _ t1 r hh hoff hget hcap hfresh1
  rw [h1]
  have hget1 : (h.stack ++
      [candidateRecord s ⟨some x, Option.none, Option.none, Option.none⟩ t1]).get?
        (h.offset + 1) =
      some (candidateRecord s ⟨some x, Option.none, Option.none, Option.none⟩ t1) := by
    have : h.offset + 1 = h.stack.length := by omega
    rw [this, List.get?_eq_getElem?, List.getElem?_concat_length]
  have h2 := recordChange_coalesce
    ({ mergeChanges s ⟨some x, Option.none, Option.none, Option.none⟩ with
        history := some ⟨h.stack ++
          [candidateRecord s ⟨some x, Option.none, Option.none, Option.none⟩ t1],
          h.offset + 1⟩ })
    ⟨h.stack ++
      [candidateRecord s ⟨some x, Option.none, Option.none, Option.none⟩ t1],
      h.offset + 1⟩
    ⟨some y, Option.none, Option.none, Option.none⟩ t2
    (candidateRecord s ⟨some x, Option.none, Option.none, Option.none⟩ t1)
    rfl (by simp; omega) hget1 (by simp; omega)
    (by simpa [candidateRecord] using hnear2)
  have hstep2 : editorReducer []
      ({ mergeChanges s ⟨some x, Option.none, Option.none, Option.none⟩ with
        history := some ⟨h.stack ++
          [candidateRecord s ⟨some x, Option.none, Option.none, Option.none⟩ t1],
          h.offset + 1⟩ })
      (EditorAction.SET_TEXT y) t2 =
      recordChange
        ({ mergeChanges s ⟨some x, Option.none, Option.none, Option.none⟩ with
          history := some ⟨h.stack ++
            [candidateRecord s ⟨some x, Option.none, Option.none, Option.none⟩ t1],
            h.offset + 1⟩ })
        ⟨some y, Option.none, Option.none, Option.none⟩ t2 := by
    rw [editorReducer_no_plugins _ _ _ _ (runPluginReducers_nil _ _)]
    simp only [builtinReducer]
    rw [if_neg (by simpa [mergeChanges] using hxy)]
  rw [hstep2, h2]
  constructor
  · simp [stackLengthOf]
  · refine ⟨_, rfl, ?_⟩
    have hsetlt : h.offset + 1 <
        (h.stack ++
          [candidateRecord s ⟨some x, Option.none, Option.none, Option.none⟩ t1]).length := by
      simp
      omega
    rw [List.get?_eq_getElem?, List.getElem?_set_self hsetlt]
    rfl

/-- Witness for C4 at the seed state with timestamps 100, 300 and 400. -/
theorem c4_witness :
    stackLengthOf (editorReducer []
        (editorReducer [] seedState (EditorAction.SET_TEXT ['b']) 300)
        (EditorAction.SET_TEXT ['c']) 400) = 1 + 1 ∧
    ∃ stk, (editorReducer []
        (editorReducer [] seedState (EditorAction.SET_TEXT ['b']) 300)
        (EditorAction.SET_TEXT ['c']) 400).history = some ⟨stk, 0 + 1⟩ ∧
      stk.get? (0 + 1) =
        some ⟨['c'], seedState.selectionStart, seedState.selectionEnd,
          seedState.selectionDirection, 300⟩ :=
  (c4_history_coalescing seedState ⟨[recA], 0⟩ stepB recA 100 ['b'] ['c'] 300 400
    rfl rfl rfl (by decide) (by decide) (by decide) (by decide) (by decide)
    (by decide) (by decide) (by decide)).2

set_option maxRecDepth 100000

/-- C1 counterexample: from a reachable state whose stack holds exactly
`HISTORY_LIMIT` records with the offset on the last one, a single fresh
`recordChange` leaves `HISTORY_LIMIT + 1` records — the claimed invariant
`stack.length ≤ 1000` does not hold after `recordChange`. -/
theorem c1_counterexample :
    ¬ stackLengthOf (recordChange stateAtLimit Changes.empty 1000) ≤
        HISTORY_LIMIT := by
  decide

/-- C1 (amended): the history stack never exceeds `HISTORY_LIMIT + 1 = 1001`
entries after `recordChange` (the eviction runs before the push, so a push
may leave the stack one past the limit); pushing more than 1000 records
reaches the steady state of exactly 1001 entries, in which each further
fresh `recordChange` evicts the oldest record from the front, applies
`Math.max(offset - extras, 0)` to the offset, and after the push leaves the
offset at `HISTORY_LIMIT`, pointing at the most recent entry. -/
theorem c1_history_limit_plus_one (s : EditorState) (c : Changes) (now : Nat)
    (h : EditorHistory) (r : EditorHistoryRecord) :
    stackLengthOf (recordChange s c now) ≤ HISTORY_LIMIT + 1 ∧
    (s.history = some h → h.stack.length = HISTORY_LIMIT + 1 →
      h.offset = HISTORY_LIMIT → h.stack.get? h.offset = some r →
      r.timestamp + HISTORY_TIME_GAP ≤ now →
      recordChange s c now =
        { mergeChanges s c with
          history := some ⟨h.stack.drop 1 ++ [candidateRecord s c now],
            HISTORY_LIMIT⟩ }) := by
  constructor
  · cases hh : s.history with
    | none =>
        unfold recordChange
        rw [hh]
        simp [stackLengthOf, mergeChanges, hh]
    | some hq =>
        rw [recordChange_some s hq c now hh]
        simp only [stackLengthOf]
        have h1 := pushOrCoalesce_length_le (candidateRecord s c now)
          (limitLen hq.offset (dropRedo hq.stack hq.offset))
        have h2 := limitLen_length_le hq.offset (dropRedo hq.stack hq.offset)
        omega
  · intro hh hlen hoff hget hfresh
    have hd : dropRedo h.stack h.offset = (h.stack, h.offset) :=
      dropRedo_at_end _ _ (by omega)
    have hl : limitLen h.offset (h.stack, h.offset) =
        (h.stack.drop 1, HISTORY_LIMIT - 1) := by
      simp only [limitLen]
      rw [if_pos (by simp [hlen, HISTORY_LIMIT])]
      rw [hlen, hoff]
      norm_num
    have hg2 : (h.stack.drop 1).get? (HISTORY_LIMIT - 1) = some r := by
      rw [List.get?_eq_getElem?, List.getElem?_drop,
        show 1 + (HISTORY_LIMIT - 1) = HISTORY_LIMIT from by norm_num [HISTORY_LIMIT],
        ← hoff, ← List.get?_eq_getElem?]
      exact hget
    have hp : pushOrCoalesce (candidateRecord s c now)
        (h.stack.drop 1, HISTORY_LIMIT - 1) =
        (h.stack.drop 1 ++ [candidateRecord s c now], HISTORY_LIMIT) := by
      rw [pushOrCoalesce_fresh _ r _ hg2
        (by simp only [candidateRecord]; omega)]
      norm_num [HISTORY_LIMIT]
    rw [recordChange_some s h c now hh, hd, hl, hp]

/-- Witness for C1 at the steady-state 1001-record stack. -/
theorem c1_witness :
    stackLengthOf (recordChange stateOverLimit Changes.empty 2000) ≤
        HISTORY_LIMIT + 1 ∧
    recordChange stateOverLimit Changes.empty 2000 =
      { mergeChanges stateOverLimit Changes.empty with
        history := some ⟨(List.replicate (HISTORY_LIMIT + 1) recA).drop 1 ++
          [candidateRecord stateOverLimit Changes.empty 2000], HISTORY_LIMIT⟩ } :=
  have hc := c1_history_limit_plus_one stateOverLimit Changes.empty 2000
    ⟨List.replicate (HISTORY_LIMIT + 1) recA, HISTORY_LIMIT⟩ recA
  ⟨hc.1, hc.2 rfl (by simp) rfl (by decide) (by decide)⟩

theorem applyChangesList_push (steps : List (Changes × Nat)) :
    ∀ (s : EditorState) (h : EditorHistory) (r : EditorHistoryRecord),
    s.history = some h → h.offset = h.stack.length - 1 →
    h.stack.get? h.offset = some r →
    h.stack.length + steps.length ≤ HISTORY_LIMIT →
    gapOK r.timestamp (steps.map Prod.snd) = true →
    ∃ ext : List EditorHistoryRecord,
      ext.length = steps.length ∧
      (applyChangesList s steps).history =
        some ⟨h.stack ++ ext, h.offset + steps.length⟩ := by
  induction steps with
  | nil =>
      intro s h r hh _ _ _ _
      exact ⟨[], rfl, by simpa [applyChangesList] using hh⟩
  | cons step rest ih =>
      intro s h r hh hoff hget hcap hgap
      obtain ⟨c, t⟩ := step
      have hlt : h.offset < h.stack.length := by
        by_contra hcon
        push_neg at hcon
        rw [List.get?_eq_getElem?, List.getElem?_eq_none hcon] at hget
        cases hget
      simp only [List.map_cons, gapOK, Bool.and_eq_true, decide_eq_true_eq] at hgap
      obtain ⟨hg1, hg2⟩ := hgap
      have hcap0 : h.stack.length ≤ HISTORY_LIMIT := by
        simp only [List.length_cons] at hcap
        omega
      have hpush := recordChange_push s h c t r hh hoff hget hcap0 hg1
      have hh1 : (recordChange s c t).history =
          some ⟨h.stack ++ [candidateRecord s c t], h.offset + 1⟩ := by rw [hpush]
      have hget1 : (h.stack ++ [candidateRecord s c t]).get? (h.offset + 1) =
          some (candidateRecord s c t) := by
        rw [show h.offset + 1 = h.stack.length from by omega, List.get?_eq_getElem?,
          List.getElem?_concat_length]
      have hcap1 : h.stack.length + rest.length + 1 ≤ HISTORY_LIMIT := by
        simp only [List.length_cons] at hcap
        omega
      obtain ⟨ext, hlenext, hexthist⟩ := ih (recordChange s c t)
        ⟨h.stack ++ [candidateRecord s c t], h.offset + 1⟩ (candidateRecord s c t)
        hh1
        (by
          show h.offset + 1 = (h.stack ++ [candidateRecord s c t]).length - 1
          simp only [List.length_append, List.length_cons, List.length_nil]
          omega)
        hget1
        (by
          show (h.stack ++ [candidateRecord s c t]).length + rest.length ≤ HISTORY_LIMIT
          simp only [List.length_append, List.length_cons, List.length_nil]
          omega)
        (by simpa [candidateRecord] using hg2)
      refine ⟨candidateRecord s c t :: ext, by simp [hlenext], ?_⟩
      have hstep : applyChangesList s ((c, t) :: rest) =
          applyChangesList (recordChange s c t) rest := rfl
      rw [hstep, hexthist]
      simp only [Option.some.injEq, EditorHistory.mk.injEq, List.length_cons]
      constructor
      · simp
      · omega

theorem undoN_replay (n : Nat) :
    ∀ (s : EditorState) (h : EditorHistory) (r : EditorHistoryRecord),
    s.history = some h →
    n ≤ h.offset →
    h.offset < h.stack.length →
    h.stack.get? (h.offset - n) = some r →
    0 < n →
    coreFields (undoN s n) =
      (r.text, r.selectionStart, r.selectionEnd, r.selectionDirection) ∧
    (undoN s n).history = some ⟨h.stack, h.offset - n⟩ := by
  induction n with
  | zero =>
      intro s h r _ _ _ _ h0
      exact absurd h0 (by omega)
  | succ m ih =>
      intro s h r hh hle hlt hget hpos
      have hprevlt : h.offset - 1 < h.stack.length := by omega
      have hrp : h.stack.get? (h.offset - 1) = some (h.stack.get ⟨h.offset - 1, hprevlt⟩) := by
        rw [List.get?_eq_getElem?]
        exact List.getElem?_eq_getElem hprevlt
      have hu := applyUndo_spec s h (h.stack.get ⟨h.offset - 1, hprevlt⟩) hh (by omega) hrp
      have hundoN : undoN s (m + 1) = undoN (applyUndo s) m := rfl
      cases Nat.eq_zero_or_pos m with
      | inl hm0 =>
          subst hm0
          have hrr : h.stack.get ⟨h.offset - 1, hprevlt⟩ = r := by
            rw [hget] at hrp
            exact (Option.some.inj hrp).symm
          rw [hundoN]
          have h0 : undoN (applyUndo s) 0 = applyUndo s := rfl
          rw [h0, hu, hrr]
          exact ⟨rfl, rfl⟩
      | inr hmpos =>
          have hget2 : h.stack.get? (h.offset - 1 - m) = some r := by
            rw [show h.offset - 1 - m = h.offset - (m + 1) from by omega]
            exact hget
          have ihh := ih (applyUndo s) ⟨h.stack, h.offset - 1⟩ r
            (by rw [hu]) (by show m ≤ h.offset - 1; omega)
            (by show h.offset - 1 < h.stack.length; omega) hget2 hmpos
          rw [hundoN]
          refine ⟨ihh.1, ?_⟩
          rw [ihh.2]
          simp only [Option.some.injEq, EditorHistory.mk.injEq, true_and]
          omega

/-- C2 counterexample: one genuinely mutating SET_TEXT whose timestamp falls
inside the coalescing window of the seed record collapses into that record;
the single UNDO afterwards is a no-op, so the text does not return to its
initial value even though the number of undos equals the number of mutating
actions and is bounded by the stack size. -/
theorem c2_counterexample :
    seedState.text ≠ ['b'] ∧
    stackLengthOf seedState = 1 ∧
    (undoN (editorReducer [] seedState (EditorAction.SET_TEXT ['b']) 100) 1).text ≠
      seedState.text := by
  decide

/-- C2 (amended): for any state with history whose record at the current
offset agrees with the live text/selection (true of every reachable state,
including undone states with a live redo branch, which the first recorded
change truncates), provided the timestamps of the mutating changes each
exceed the previous record's timestamp by at least `HISTORY_TIME_GAP` (so no
coalescing occurs) and the stack stays within `HISTORY_LIMIT` (so no
eviction occurs): a sequence of n recorded changes followed by n UNDO
dispatches restores the initial text and selection; REDO immediately after
an UNDO restores the text, selectionStart, selectionEnd and
selectionDirection the state had before that UNDO; UNDO is a no-op when
history is absent or the offset is 0; and REDO is a no-op when the offset is
the last index. -/
theorem c2_undo_redo_inverse
    (s : EditorState) (h : EditorHistory) (r : EditorHistoryRecord)
    (steps : List (Changes × Nat))
    (s2 : EditorState) (h2 : EditorHistory) (rCur : EditorHistoryRecord)
    (s3 s4 s5 : EditorState) (h4 h5 : EditorHistory)
    (hh : s.history = some h)
    (hget : h.stack.get? h.offset = some r)
    (hinv : coreFields s = (r.text, r.selectionStart, r.selectionEnd, r.selectionDirection))
    (hcap : h.stack.length + steps.length ≤ HISTORY_LIMIT)
    (hgap : gapOK r.timestamp (steps.map Prod.snd) = true)
    (hh2 : s2.history = some h2)
    (hpos2 : 0 < h2.offset)
    (hgetCur : h2.stack.get? h2.offset = some rCur)
    (hinv2 : coreFields s2 =
      (rCur.text, rCur.selectionStart, rCur.selectionEnd, rCur.selectionDirection))
    (hh3 : s3.history = Option.none)
    (hh4 : s4.history = some h4) (hoff4 : h4.offset = 0)
    (hh5 : s5.history = some h5) (hoff5 : h5.offset = h5.stack.length - 1) :
    coreFields (undoN (applyChangesList s steps) steps.length) = coreFields s ∧
    coreFields (applyRedo (applyUndo s2)) = coreFields s2 ∧
    applyUndo s3 = s3 ∧
    applyUndo s4 = s4 ∧
    applyRedo s5 = s5 := by
  refine ⟨?_, ?_, ?_, ?_, ?_⟩
  · -- the sequence inverse law (any in-range offset; a live redo branch is
    -- truncated by the first recorded change)
    cases steps with
    | nil => rfl
    | cons step rest =>
        obtain ⟨c, t⟩ := step
        have hlt : h.offset < h.stack.length := by
          by_contra hcon
          push_neg at hcon
          rw [List.get?_eq_getElem?, List.getElem?_eq_none hcon] at hget
          cases hget
        have hcapn : h.stack.length + rest.length + 1 ≤ HISTORY_LIMIT := by
          simp only [List.length_cons] at hcap
          omega
        simp only [List.map_cons, gapOK, Bool.and_eq_true, decide_eq_true_eq] at hgap
        obtain ⟨hg1, hg2⟩ := hgap
        have hpush := recordChange_push_general s h c t r hh hlt hget (by omega) hg1
        have hh1 : (recordChange s c t).history =
            some ⟨h.stack.take (h.offset + 1) ++ [candidateRecord s c t],
              h.offset + 1⟩ := by
          rw [hpush]
        have htklen : (h.stack.take (h.offset + 1)).length = h.offset + 1 := by
          rw [List.length_take]
          omega
        have hget1 : (h.stack.take (h.offset + 1) ++ [candidateRecord s c t]).get?
            (h.offset + 1) = some (candidateRecord s c t) := by
          have hcl := List.getElem?_concat_length (h.stack.take (h.offset + 1))
            (candidateRecord s c t)
          rw [htklen] at hcl
          rw [List.get?_eq_getElem?]
          exact hcl
        obtain ⟨ext, hlenext, hexthist⟩ := applyChangesList_push rest
          (recordChange s c t)
          ⟨h.stack.take (h.offset + 1) ++ [candidateRecord s c t], h.offset + 1⟩
          (candidateRecord s c t) hh1
          (by
            show h.offset + 1 =
              (h.stack.take (h.offset + 1) ++ [candidateRecord s c t]).length - 1
            simp only [List.length_append, List.length_cons, List.length_nil, htklen]
            omega)
          hget1
          (by
            show (h.stack.take (h.offset + 1) ++ [candidateRecord s c t]).length +
              rest.length ≤ HISTORY_LIMIT
            simp only [List.length_append, List.length_cons, List.length_nil, htklen]
            omega)
          (by simpa [candidateRecord] using hg2)
        have hstep : applyChangesList s ((c, t) :: rest) =
            applyChangesList (recordChange s c t) rest := rfl
        have hgetr : ((h.stack.take (h.offset + 1) ++ [candidateRecord s c t]) ++ ext).get?
            (h.offset + 1 + rest.length - ((c, t) :: rest).length) = some r := by
          rw [show h.offset + 1 + rest.length - ((c, t) :: rest).length = h.offset from by
            simp only [List.length_cons]; omega]
          rw [List.get?_eq_getElem?,
            List.getElem?_append_left (by
              simp only [List.length_append, List.length_cons, List.length_nil, htklen]
              omega),
            List.getElem?_append_left (by rw [htklen]; omega),
            List.getElem?_take_of_lt (by omega), ← List.get?_eq_getElem?]
          exact hget
        have hrep := undoN_replay ((c, t) :: rest).length
          (applyChangesList s ((c, t) :: rest))
          ⟨(h.stack.take (h.offset + 1) ++ [candidateRecord s c t]) ++ ext,
            h.offset + 1 + rest.length⟩ r
          (by rw [hstep]; exact hexthist)
          (by
            show ((c, t) :: rest).length ≤ h.offset + 1 + rest.length
            simp only [List.length_cons]
            omega)
          (by
            show h.offset + 1 + rest.length <
              ((h.stack.take (h.offset + 1) ++ [candidateRecord s c t]) ++ ext).length
            simp only [List.length_append, List.length_cons, List.length_nil, htklen,
              hlenext]
            omega)
          hgetr (by simp)
        rw [hrep.1, hinv]
  · -- redo immediately after undo
    have hltCur : h2.offset < h2.stack.length := by
      by_contra hcon
      push_neg at hcon
      rw [List.get?_eq_getElem?, List.getElem?_eq_none hcon] at hgetCur
      cases hgetCur
    have hprevlt : h2.offset - 1 < h2.stack.length := by omega
    have hrp : h2.stack.get? (h2.offset - 1) =
        some (h2.stack.get ⟨h2.offset - 1, hprevlt⟩) := by
      rw [List.get?_eq_getElem?]
      exact List.getElem?_eq_getElem hprevlt
    have hu := applyUndo_spec s2 h2 (h2.stack.get ⟨h2.offset - 1, hprevlt⟩) hh2 hpos2 hrp
    have hgetCur2 : h2.stack.get? (h2.offset - 1 + 1) = some rCur := by
      rw [show h2.offset - 1 + 1 = h2.offset from by omega]
      exact hgetCur
    have hr := applyRedo_spec
      ({ s2 with
        text := (h2.stack.get ⟨h2.offset - 1, hprevlt⟩).text
        selectionStart := (h2.stack.get ⟨h2.offset - 1, hprevlt⟩).selectionStart
        selectionEnd := (h2.stack.get ⟨h2.offset - 1, hprevlt⟩).selectionEnd
        selectionDirection := (h2.stack.get ⟨h2.offset - 1, hprevlt⟩).selectionDirection
        history := some ⟨h2.stack, h2.offset - 1⟩ })
      ⟨h2.stack, h2.offset - 1⟩ rCur rfl
      (by show h2.offset - 1 < h2.stack.length - 1; omega) hgetCur2
    rw [hu, hr, hinv2]
    rfl
  · -- UNDO no-op without history
    unfold applyUndo
    rw [editorReducer_no_plugins _ _ _ _ (runPluginReducers_nil _ _)]
    simp [builtinReducer, hh3]
  · -- UNDO no-op at offset 0
    unfold applyUndo
    rw [editorReducer_no_plugins _ _ _ _ (runPluginReducers_nil _ _)]
    simp [builtinReducer, hh4, hoff4]
  · -- REDO no-op at the last index
    unfold applyRedo
    rw [editorReducer_no_plugins _ _ _ _ (runPluginReducers_nil _ _)]
    simp only [builtinReducer, hh5]
    rw [if_pos (by omega)]

/-- Witness for C2: two fresh SET_TEXT-style changes on the seed state, then
two undos; a redo after an undo on a two-record state; and the three no-op
configurations. -/
theorem c2_witness :
    coreFields (undoN (applyChangesList seedState [(stepB, 200), (stepC, 400)]) 2) =
      coreFields seedState ∧
    coreFields (applyRedo (applyUndo afterPushB)) = coreFields afterPushB ∧
    applyUndo noHistState = noHistState ∧
    applyUndo seedState = seedState ∧
    applyRedo afterPushB = afterPushB :=
  c2_undo_redo_inverse seedState ⟨[recA], 0⟩ recA [(stepB, 200), (stepC, 400)]
    afterPushB ⟨[recA, recB], 1⟩ recB noHistState seedState afterPushB
    ⟨[recA], 0⟩ ⟨[recA, recB], 1⟩
    rfl (by decide) (by decide) (by decide) (by decide)
    rfl (by decide) (by decide) (by decide)
    rfl rfl (by decide) rfl (by decide)

end MiniEditor
